import Mathlib

/-!
# Verification of the `solution-bot` submission pipeline

A shallow embedding of `src/solution-bot/cogs/runner.py` (the `Runner` cog of
the Advent of Code Golf 2023 bot), together with theorems about its answer
decoder, grading engine, submission ledger, leaderboard builder and
verification orchestrator.

Conventions of the embedding:
* Python `str` is Lean `String`; byte strings are `List Nat` of byte values,
  produced from strings by UTF-8 encoding (`strBytes`), exactly as Python's
  `str.encode()` does.
* The JSON ledger `solution_authors.json` (`dict[str_day, dict[lang, author]]`)
  is an association list `List (Nat × List (String × String))`; Python `dict`
  lookup/assignment become association-list lookup and in-place update
  (appending new keys at the end, as `dict` insertion does).  All downstream
  consumers (`max` over keys, `sorted(set(...))`, `.get`) are insensitive to
  the association order, so this is faithful.
* The filesystem of stored solutions (`solutions/{day}/{lang}`) is a function
  `Nat → String → Option (List Nat)`.
* External collaborators (the ATO execution service, the `thefuzz`
  approximate matcher, Python's `re.search`, and `aoc_helper.decode_text`)
  are parameters of the model: the repository only consumes their results.
-/

namespace AocGolf

/-! ## Answer decoder (`Runner.row_to_bools`, `Runner.parse_answers`) -/

/-- `Runner.row_to_bools`: `[c == "#" for c in row]`. -/
def row_to_bools (row : String) : List Bool :=
  row.toList.map (fun c => c == '#')

/-- Python's substring test `needle in hay` on `str`. -/
def containsSub (hay needle : String) : Bool :=
  decide (needle.toList <:+: hay.toList)

/-- The grid-likeness test of `Runner.parse_answers`: `"#" in answer`. -/
def isGridToken (t : String) : Bool :=
  containsSub t "#"

/-- The loop body of `Runner.parse_answers`: walk the tokens carrying the
`current_grid` accumulator; a grid-like token is appended to the accumulator,
which is flushed through `decode` (the external `aoc_helper.decode_text`)
exactly when it reaches 6 rows; a plain token is emitted verbatim.  A partial
accumulator left at the end of the list is discarded, as in the source. -/
def parse_answers_aux (decode : List (List Bool) → String) :
    List String → List (List Bool) → List String
  | [], _ => []
  | answer :: rest, current_grid =>
    if isGridToken answer then
      let grid := current_grid ++ [row_to_bools answer]
      if grid.length = 6 then
        decode grid :: parse_answers_aux decode rest []
      else
        parse_answers_aux decode rest grid
    else
      answer :: parse_answers_aux decode rest current_grid

/-- `Runner.parse_answers`, parameterised by the external glyph decoder. -/
def parse_answers (decode : List (List Bool) → String) (answers : List String) :
    List String :=
  parse_answers_aux decode answers []

/-- The `current_grid` accumulator state after processing a token list,
starting from accumulator `g` (not part of the source, which discards the
final accumulator; used to reason about `parse_answers` on appended lists). -/
def gridState : List String → List (List Bool) → List (List Bool)
  | [], g => g
  | answer :: rest, g =>
    if isGridToken answer then
      let grid := g ++ [row_to_bools answer]
      if grid.length = 6 then gridState rest []
      else gridState rest grid
    else gridState rest g

/-- Number of grid-like tokens in a token list. -/
def countGrid (ts : List String) : Nat :=
  (ts.filter isGridToken).length

/-! ## Grading engine (`Runner.grade_solution`) -/

/-- The grade taxonomy.  The source reports these as chat messages and returns
a `bool`; the payloads below are exactly the data interpolated into each
message (`WrongAnswer part given expected` for the "wrong answer for part
{part}" message). -/
inductive GradeResult where
  | Correct : GradeResult
  | WrongCount (found expected : Nat) : GradeResult
  | WrongAnswer (part : Nat) (given expected : String) : GradeResult
  | WrongBoth (given expected : String × String) : GradeResult
deriving DecidableEq, Repr

/-- The comparison logic of `Runner.grade_solution`, applied to the already
decoded answers (the source first runs `parse_answers`; the composition is
`grade_solution` below).  List indexing `answers[i]` becomes `getD i ""`;
every use is guarded so the default is never taken on inputs reachable in the
source (lengths are equal and positive at each indexing point). -/
def grade_decoded (answers real_answers : List String) : GradeResult :=
  if answers.length ≠ real_answers.length then
    .WrongCount answers.length real_answers.length
  else if answers = real_answers then
    .Correct
  else if answers.getD 0 "" = real_answers.getD 0 "" then
    .WrongAnswer 2 (answers.getD 1 "") (real_answers.getD 1 "")
  else if answers.length = 1 ∨ answers.getD 1 "" = real_answers.getD 1 "" then
    .WrongAnswer 1 (answers.getD 0 "") (real_answers.getD 0 "")
  else
    .WrongBoth (answers.getD 0 "", answers.getD 1 "")
      (real_answers.getD 0 "", real_answers.getD 1 "")

/-- `Runner.grade_solution`: decode, then compare. -/
def grade_solution (decode : List (List Bool) → String)
    (answers real_answers : List String) : GradeResult :=
  grade_decoded (parse_answers decode answers) real_answers

/-- The boolean outcome of `Runner.grade_solution` (`True` iff it graded
`Correct`), which is what `Runner.submit` branches on. -/
def gradeOk (decode : List (List Bool) → String)
    (answers real_answers : List String) : Bool :=
  grade_decoded (parse_answers decode answers) real_answers == .Correct

/-- Reference grading function transcribed from the specification's wording
(§4.4), by case on the arity of the expected tuple (1 or 2; other arities do
not occur).  To be compared with `grade_decoded`. -/
def gradeSpec (answers real_answers : List String) : GradeResult :=
  match real_answers with
  | [e1] =>
    if answers.length ≠ 1 then .WrongCount answers.length 1
    else if answers = [e1] then .Correct
    else .WrongAnswer 1 (answers.getD 0 "") e1
  | [e1, e2] =>
    if answers.length ≠ 2 then .WrongCount answers.length 2
    else if answers = [e1, e2] then .Correct
    else if answers.getD 0 "" = e1 then .WrongAnswer 2 (answers.getD 1 "") e2
    else if answers.getD 1 "" = e2 then .WrongAnswer 1 (answers.getD 0 "") e1
    else .WrongBoth (answers.getD 0 "", answers.getD 1 "") (e1, e2)
  | _ => .WrongCount answers.length real_answers.length

/-! ## Bytes and URL quoting -/

/-- UTF-8 encoding of one character, as a list of byte values (Python's
`str.encode()` applied characterwise). -/
def utf8Bytes (c : Char) : List Nat :=
  let n := c.toNat
  if n < 128 then [n]
  else if n < 2048 then [192 + n / 64, 128 + n % 64]
  else if n < 65536 then [224 + n / 4096, 128 + n / 64 % 64, 128 + n % 64]
  else [240 + n / 262144, 128 + n / 4096 % 64, 128 + n / 64 % 64, 128 + n % 64]

/-- Python `str.encode()`: the UTF-8 bytes of a string. -/
def strBytes (s : String) : List Nat :=
  s.toList.flatMap utf8Bytes

/-- Bytes that `urllib.parse.quote` leaves unescaped with the default
`safe='/'`: ASCII letters, digits, `_.-~` and `/`. -/
def quoteSafe (b : Nat) : Bool :=
  (65 ≤ b && b ≤ 90) || (97 ≤ b && b ≤ 122) || (48 ≤ b && b ≤ 57) ||
    b == 95 || b == 46 || b == 45 || b == 126 || b == 47

/-- Upper-case hexadecimal digit. -/
def hexDigit (n : Nat) : Char :=
  if n < 10 then Char.ofNat (48 + n) else Char.ofNat (55 + n)

/-- `urllib.parse.quote`: percent-encode every UTF-8 byte outside the safe
set. -/
def quoteUrl (s : String) : String :=
  String.mk ((strBytes s).flatMap fun b =>
    if quoteSafe b then [Char.ofNat b] else ['%', hexDigit (b / 16), hexDigit (b % 16)])

/-! ## Ledger (`solution_authors.json`) and stored-solution state -/

/-- The parsed ledger: day number → (language display name → author). -/
abbrev Ledger := List (Nat × List (String × String))

/-- Python `dict` assignment `m[k] = v` on an association list: replace the
value at an existing key in place, else append the new key at the end. -/
def alistSet (m : List (String × String)) (k v : String) :
    List (String × String) :=
  if (List.lookup k m).isSome then
    m.map fun p => if p.1 = k then (k, v) else p
  else
    m ++ [(k, v)]

/-- The ledger mutation of `Runner.update_solutions`:
`solution_authors[str(day)][language] = author` when the day key exists, else
`solution_authors[str(day)] = {language: author}`. -/
def ledgerSet (ledger : Ledger) (day : Nat) (language author : String) : Ledger :=
  if (List.lookup day ledger).isSome then
    ledger.map fun p => if p.1 = day then (day, alistSet p.2 language author) else p
  else
    ledger ++ [(day, [(language, author)])]

/-- The author recorded in the ledger for `(day, language)`, if any. -/
def recordOf (ledger : Ledger) (day : Nat) (language : String) : Option String :=
  (List.lookup day ledger).bind (List.lookup language)

/-! ## Leaderboard builder (`Runner.update_leaderboard`) -/

/-- `max(int(day) for day in solution_authors)`; the source only calls this on
a non-empty ledger (on an empty one Python's `max` would raise). -/
def maxDay (ledger : Ledger) : Nat :=
  (ledger.map Prod.fst).foldl max 0

/-- `sorted({lang for day in solution_authors.values() for lang in day})`:
the set of languages appearing anywhere in the ledger, in ascending
lexicographic order.  (`sorted` of a `set` of distinct strings is produced by
any correct sort; insertion sort is used for kernel-computability.) -/
def allLangs (ledger : Ledger) : List String :=
  ((ledger.flatMap fun p => p.2.map Prod.fst).dedup).insertionSort (· ≤ ·)

/-- The `get_entry` closure of `Runner.update_leaderboard`:
`if author := day_solutions.get(lang): "[{len} - {author}](./solutions/{day}/{quote(lang)})" else "-"`.
Note the Python truthiness: an empty-string author falls through to `"-"`.
`lenOf day lang` stands for `len((solutions_dir / str(day) / lang).read_bytes())`. -/
def get_entry (lenOf : Nat → String → Nat) (day_solutions : List (String × String))
    (day : Nat) (lang : String) : String :=
  match List.lookup lang day_solutions with
  | some author =>
    if author = "" then "-"
    else
      "[" ++ toString (lenOf day lang) ++ " - " ++ author ++ "](./solutions/"
        ++ toString day ++ "/" ++ quoteUrl lang ++ ")"
  | none => "-"

/-- One data row of the leaderboard table (the body of the `for day in
range(1, max_day + 1)` loop), without its leading newline. -/
def leaderboardRow (ledger : Ledger) (lenOf : Nat → String → Nat)
    (langs : List String) (day : Nat) : String :=
  toString day ++ " | " ++ String.intercalate " | "
    (langs.map (get_entry lenOf ((List.lookup day ledger).getD []) day))

/-- The leaderboard table built by `Runner.update_leaderboard` from the ledger
and the stored solutions' byte lengths. -/
def leaderboardTable (ledger : Ledger) (lenOf : Nat → String → Nat) : String :=
  "Day | " ++ String.intercalate " | " (allLangs ledger) ++ "\n--: | "
    ++ String.intercalate " | " ((allLangs ledger).map fun _ => "---")
    ++ String.join (((List.range' 1 (maxDay ledger)).map fun day =>
        "\n" ++ leaderboardRow ledger lenOf (allLangs ledger) day))

/-- The fixed `README_TEMPLATE` text up to its `\x7b\x7d` placeholder. -/
def readmeTemplatePre : String :=
  "# Advent of Code Golf 2023\n\n![Advent of Code Golf icon](./advent-of-code-golf.png)\n\nThis is a community project for Advent of Code Golf 2023 - anyone can submit a\nsolution to any day, in any language (supported by [Attempt This\nOnline](https://ato.pxeger.com)), and the shortest one for each language wins.\nThis file will be maintained by the `solution-bot` and will contain the current\nleaderboard.\n\nIf you wish to submit solutions, please use [the bot](https://discord.com/api/oauth2/authorize?client_id=1179753478214651915&permissions=0&scope=bot)\n(or [on the code.golf server](https://discord.gg/eVCTkYQ))\n\n## Submission rules\n\n- Each solution must be a full program, runnable on [Attempt This\n  Online](https://ato.pxeger.com) - this is how the bot will evaluate submissions.\n- Each solution must be a valid answer to the challenge - the bot will check this\n  against my input/output for the day. If you believe a submission is *wrong*\n  (i.e. doesn't solve the challenge on your input), please raise an issue\n  indicating the last working solution for that language, and include your\n  Discord username so I can DM you to collect your input and answers.\n- Puzzles involving grid lettering do not need to OCR the letters themselves -\n  outputting the grid is sufficient.\n- Input will be provided as stdin, and output should be to stdout.\n- Input length is measured in *bytes*, not characters.\n\n## Leaderboard\n\n"

/-- The full README document written by `Runner.update_leaderboard`:
`README_TEMPLATE.format(leaderboard)`. -/
def update_leaderboard (ledger : Ledger) (lenOf : Nat → String → Nat) : String :=
  readmeTemplatePre ++ leaderboardTable ledger lenOf ++ "\n"

/-! ## Persistent state and `Runner.update_solutions` -/

/-- The persistent repository state the bot mutates: the stored solution
sources (`solutions/{day}/{language}` as byte contents), the parsed
`solution_authors.json` ledger, and the `README.md` leaderboard document. -/
structure FS where
  files : Nat → String → Option (List Nat)
  ledger : Ledger
  readme : String

/-- Byte length of each stored solution, `0` where none is stored (the source
only reads lengths at positions where a record, and hence a file, exists). -/
def lenOfFiles (files : Nat → String → Option (List Nat)) : Nat → String → Nat :=
  fun d l => ((files d l).getD []).length

/-- Write one solution file. -/
def setFile (files : Nat → String → Option (List Nat)) (day : Nat)
    (lang : String) (b : List Nat) : Nat → String → Option (List Nat) :=
  fun d l => if d = day ∧ l = lang then some b else files d l

/-- `Runner.update_solutions`: if a solution file already exists for
`(day, language)`, overwrite it (and re-record the author, and rebuild the
leaderboard) exactly when the new source is strictly shorter in bytes;
otherwise store the first solution, record the author and rebuild.  The git
commit-and-push is external and not part of the state. -/
def update_solutions (s : FS) (day : Nat) (language author code : String) : FS :=
  let code_bytes := strBytes code
  match s.files day language with
  | some current_solution =>
    if code_bytes.length < current_solution.length then
      let files := setFile s.files day language code_bytes
      let ledger := ledgerSet s.ledger day language author
      { files := files, ledger := ledger,
        readme := update_leaderboard ledger (lenOfFiles files) }
    else
      s
  | none =>
    let files := setFile s.files day language code_bytes
    let ledger := ledgerSet s.ledger day language author
    { files := files, ledger := ledger,
      readme := update_leaderboard ledger (lenOfFiles files) }

/-! ## Naive datetimes (`datetime.utcnow`, `replace`, `timedelta`) -/

/-- A naive UTC datetime, decomposed as the fields the source manipulates:
everything above the minute is collapsed into whole hours since the epoch
(hour boundaries are what `replace(minute=..., second=0, microsecond=0)`
preserves).  Valid values have `minute < 60`, `second < 60`,
`microsecond < 1000000`. -/
structure DateTime where
  hoursSinceEpoch : Nat
  minute : Nat
  second : Nat
  microsecond : Nat

/-- Microseconds since the epoch (`datetime.timestamp()` scaled by 10^6). -/
def DateTime.toMicros (d : DateTime) : Nat :=
  ((d.hoursSinceEpoch * 60 + d.minute) * 60 + d.second) * 1000000 + d.microsecond

/-- The retry instant computed by `Runner.submit` when the day's expected
answers are missing:
`now.replace(second=0, microsecond=0, minute=now.minute - (now.minute % 15)) + timedelta(minutes=15)`,
in microseconds since the epoch. -/
def nextQuarterMicros (now : DateTime) : Nat :=
  let soon : DateTime :=
    { now with minute := now.minute - now.minute % 15, second := 0, microsecond := 0 }
  soon.toMicros + 15 * 60 * 1000000

/-- `int(soon.timestamp())`: the retry instant in whole seconds, as
interpolated into the "try again" message. -/
def nextQuarterTimestamp (now : DateTime) : Nat :=
  nextQuarterMicros now / 1000000

/-- `datetime(2023, 12, day, 5)` as microseconds since the epoch: 2023-12-01
is day 19692 of the Unix epoch. -/
def puzzleUnlockMicros (day : Nat) : Nat :=
  ((19692 + (day - 1)) * 86400 + 5 * 3600) * 1000000

/-! ## Language catalog (`Runner.get_language`) -/

/-- One entry of the language catalog (`LanguageMeta` in the source), after
`async_init`/`load_variants` have populated the custom fields. -/
structure LangMeta where
  name : String
  version : String
  internalName : String
  atoName : String
  disallowedRegex : Option String
deriving DecidableEq, Repr

/-- The catalog state built by `async_init` from the external
`languages.json` (plus the synthesized variants): `languages` keyed by
catalog key, `lookup` keyed by lower-cased key and lower-cased display name.
Both are association lists with first-match lookup. -/
structure Catalog where
  languages : List (String × LangMeta)
  lookup : List (String × LangMeta)

/-- Python's `str.lower()` (characterwise; like Lean's `String.toLower`, the
embedding lowers ASCII letters — the catalog's keys and names are ASCII).
Defined by structural recursion over the character list so that it computes
by kernel reduction. -/
def strLower (s : String) : String :=
  String.mk (s.toList.map Char.toLower)

/-- The deduplication loop of `Runner.get_language`: keep each fuzzy-match
result whose language's display name has not been seen yet (`found` is the
set of names already kept).  A result key absent from `language_lookup`
cannot occur (the matcher draws candidates from that very dictionary's keys);
such a key is skipped. -/
def filterResults (lookup : List (String × LangMeta)) :
    List (String × Nat) → List String → List (LangMeta × Nat)
  | [], _ => []
  | (lang, score) :: rest, found =>
    match List.lookup lang lookup with
    | some meta =>
      if meta.name ∈ found then filterResults lookup rest found
      else (meta, score) :: filterResults lookup rest (meta.name :: found)
    | none => filterResults lookup rest found

/-- `Runner.get_language`, parameterised by the external approximate matcher
`extract` (`thefuzz.process.extract(query, keys, scorer=fuzz.ratio, limit=n)`):
exact (lower-cased) match against the catalog keys, then against the lookup
table (lower-cased keys and display names); otherwise fuzzy-match against the
lookup keys with limit `top_n * 2`, deduplicate by display name, and return
the top `top_n`. -/
def get_language (cat : Catalog) (extract : String → List String → Nat → List (String × Nat))
    (language : String) (top_n : Nat) : Option LangMeta × List (LangMeta × Nat) :=
  let language := strLower language
  match List.lookup language cat.languages with
  | some meta => (some meta, [])
  | none =>
    match List.lookup language cat.lookup with
    | some meta => (some meta, [])
    | none =>
      let results := extract language (cat.lookup.map Prod.fst) (top_n * 2)
      (none, (filterResults cat.lookup results []).take top_n)

/-! ## The submission orchestrator (`Runner.submit`) -/

/-- A submitted code block (`jishaku.codeblocks.Codeblock`). -/
structure Codeblock where
  cbLanguage : Option String
  content : String

/-- The codeblock trimming at the top of `Runner.submit`: when the block was
given with triple-backtick syntax (`code.language is not None`), drop the
leading newline, and drop one trailing newline unless the user-supplied
language argument is exactly `"whitespace"`. -/
def trimCode (language : String) (code : Codeblock) : Codeblock :=
  match code.cbLanguage with
  | some l =>
    let code_content := code.content.drop 1
    let code_content :=
      if code_content.endsWith "\n" && language != "whitespace" then
        code_content.dropRight 1
      else code_content
    { cbLanguage := some l, content := code_content }
  | none => code

/-- The terminal outcome of one `Runner.submit` invocation (which reply, or
uncaught exception, ended the command).  `notOpen` carries the retry
timestamp interpolated into the "submissions not yet open" message;
`wrongSupp i` is a failed grade on the `i`-th supplementary case;
`typeError` is the uncaught `TypeError` raised by the suggestion-reformatting
comprehension of the language-failure branch (see `top3Meta`), which kills
the command before any suggestions are surfaced. -/
inductive Outcome where
  | locked : Outcome
  | langNotFound : Outcome
  | typeError : Outcome
  | restricted : Outcome
  | notOpen (retryTimestamp : Nat) : Outcome
  | cheat : Outcome
  | wrongPrimary : Outcome
  | wrongSupp (i : Nat) : Outcome
  | accepted : Outcome
deriving DecidableEq, Repr

/-- The environment of one submission attempt: everything `Runner.submit`
consumes that is not the mutable repository state.  `sol1`/`sol2` are the
contents of the primary case's `1.solution`/`2.solution` files (absent when
not yet published); `suppCases` are the supplementary cases' `(input,
1.solution, 2.solution)` files; `runs n` is the token list produced by the
`n`-th remote execution of this attempt (`self.execute`, an external
service); `decode`, `extract` and `reSearch` are the external
`aoc_helper.decode_text`, `thefuzz` matcher and `re.search` (returning the
matched substring). -/
structure SubmitEnv where
  now : DateTime
  catalog : Catalog
  extract : String → List String → Nat → List (String × Nat)
  reSearch : String → String → Option String
  sol1 : Option String
  sol2 : Option String
  suppCases : List (String × String × String)
  runs : Nat → List String
  decode : List (List Bool) → String
  authorName : String

/-- The primary case's expected answers as read by `Runner.submit`:
`1.solution`, plus `2.solution` when `day != 25`; `none` models the
`FileNotFoundError` branch. -/
def realAnswersOf (env : SubmitEnv) (day : Nat) : Option (List String) :=
  match env.sol1 with
  | none => none
  | some a1 =>
    if day = 25 then some [a1]
    else
      match env.sol2 with
      | none => none
      | some a2 => some [a1, a2]

/-- The anti-cheat test of `Runner.submit`:
`real_answers[0] in code.content or day != 25 and real_answers[1] in code.content`
(Python precedence: `a or (b and c)`). -/
def cheatCheck (day : Nat) (real_answers : List String) (content : String) : Bool :=
  containsSub content (real_answers.getD 0 "")
    || (day != 25 && containsSub content (real_answers.getD 1 ""))

/-- Expected answers of one supplementary case: `1.solution`, plus
`2.solution` when `day != 25`. -/
def suppAnswers (day : Nat) (c : String × String × String) : List String :=
  if day = 25 then [c.2.1] else [c.2.1, c.2.2]

/-- The supplementary-case loop of `Runner.submit`: run and grade each case
in order (`cnt` numbers the remote executions of the whole attempt), stopping
at the first failure; returns the failing case's index (if any) and the
updated execution count. -/
def suppLoop (env : SubmitEnv) (day : Nat) :
    List (String × String × String) → Nat → Nat → Option Nat × Nat
  | [], _, cnt => (none, cnt)
  | c :: rest, idx, cnt =>
    if gradeOk env.decode (env.runs cnt) (suppAnswers day c) then
      suppLoop env day rest (idx + 1) (cnt + 1)
    else
      (some idx, cnt + 1)

/-- The variant content-restriction check of `Runner.submit`:
`re.search(ato_lang["disallowed_regex"], code.content)` when a restriction
pattern is present. -/
def restrictionHit (env : SubmitEnv) (meta : LangMeta) (content : String) : Bool :=
  match meta.disallowedRegex with
  | some rx => (env.reSearch rx content).isSome
  | none => false

/-- The suggestion-reformatting comprehension of the language-failure branch
in `Runner.submit` (and `Runner.search`):
`[(self.languages[lang], score) for lang, score in top_3_matches if lang in self.languages]`.
`get_language` returns `(LanguageMeta, score)` pairs, so `lang` is bound to a
`LanguageMeta` dict and `lang in self.languages` hashes it, raising
`TypeError: unhashable type` at the first element; the comprehension only
completes — with the empty list — when there are no suggestions at all.
Modelled as `Except`, with `.error ()` the uncaught `TypeError`. -/
def top3Meta (suggestions : List (LangMeta × Nat)) :
    Except Unit (List (LangMeta × Nat)) :=
  match suggestions with
  | [] => .ok []
  | _ :: _ => .error ()

/-- `Runner.submit` as a state transition: given the environment, the command
arguments (`day`, `language`, codeblock) and the repository state, produce
the terminal outcome, the number of remote executions performed, and the new
repository state.  (The trimmed codeblock is written `trimCode language
code` at each use site; the variant content restriction is factored into
`restrictionHit`.)  Stages, in source order: unlock check, codeblock trim,
language resolution (whose failure branch crashes via `top3Meta` whenever
there are suggestions), variant content restriction, expected-answer
availability (quarter-hour retry), anti-cheat substring check, primary
execute+grade, supplementary execute+grade loop, ledger update. -/
def submit (env : SubmitEnv) (day : Nat) (language : String) (code : Codeblock)
    (s : FS) : Outcome × Nat × FS :=
  if env.now.toMicros < puzzleUnlockMicros day then
    (.locked, 0, s)
  else
    match (get_language env.catalog env.extract language 3).1 with
    | none =>
      match top3Meta (get_language env.catalog env.extract language 3).2 with
      | .ok _ => (.langNotFound, 0, s)
      | .error _ => (.typeError, 0, s)
    | some ato_lang =>
      if restrictionHit env ato_lang (trimCode language code).content then
        (.restricted, 0, s)
      else
        match realAnswersOf env day with
        | none => (.notOpen (nextQuarterTimestamp env.now), 0, s)
        | some real_answers =>
          if cheatCheck day real_answers (trimCode language code).content then
            (.cheat, 0, s)
          else if !gradeOk env.decode (env.runs 0) real_answers then
            (.wrongPrimary, 1, s)
          else
            match suppLoop env day env.suppCases 0 1 with
            | (some i, cnt) => (.wrongSupp i, cnt, s)
            | (none, cnt) =>
              (.accepted, cnt,
                update_solutions s day ato_lang.name env.authorName
                  (trimCode language code).content)

/-! ## Theorems -/

/-- C8.  When the primary case's expected-answer files are absent (and the
attempt reaches that stage), `submit` aborts with the quarter-hour retry
timestamp, which is a multiple of 900 seconds (zero seconds, minute divisible
by 15), strictly later than the current time, and later by at most 15
minutes. -/
theorem submit_quarter_hour_retry (env : SubmitEnv) (day : Nat) (language : String)
    (code : Codeblock) (s : FS) (meta : LangMeta)
    (hunlock : ¬ env.now.toMicros < puzzleUnlockMicros day)
    (hlang : (get_language env.catalog env.extract language 3).1 = some meta)
    (hrx : meta.disallowedRegex = none)
    (hans : realAnswersOf env day = none)
    (hmin : env.now.minute < 60) (hsec : env.now.second < 60)
    (hmicro : env.now.microsecond < 1000000) :
    submit env day language code s = (.notOpen (nextQuarterTimestamp env.now), 0, s) ∧
    nextQuarterTimestamp env.now % 900 = 0 ∧
    env.now.toMicros < nextQuarterTimestamp env.now * 1000000 ∧
    nextQuarterTimestamp env.now * 1000000 ≤ env.now.toMicros + 900000000 := by
  refine ⟨?_, ?_, ?_, ?_⟩
  · simp only [submit, if_neg hunlock, hlang, restrictionHit, hrx, hans]
    simp
  · simp only [nextQuarterTimestamp, nextQuarterMicros, DateTime.toMicros]
    omega
  · simp only [nextQuarterTimestamp, nextQuarterMicros, DateTime.toMicros]
    omega
  · simp only [nextQuarterTimestamp, nextQuarterMicros, DateTime.toMicros]
    omega

/-- Witness for `submit_quarter_hour_retry` at a concrete environment. -/
theorem submit_quarter_hour_retry_witness :
    submit
      { now := { hoursSinceEpoch := 500000, minute := 17, second := 30, microsecond := 5 },
        catalog := { languages := [("python", ⟨"Python", "3.11", "python", "python", none⟩)],
                     lookup := [("python", ⟨"Python", "3.11", "python", "python", none⟩)] },
        extract := fun _ _ _ => [], reSearch := fun _ _ => none,
        sol1 := none, sol2 := none, suppCases := [], runs := fun _ => [],
        decode := fun _ => "", authorName := "alice" }
      1 "python" { cbLanguage := none, content := "print(1)" }
      { files := fun _ _ => none, ledger := [], readme := "" } =
      (.notOpen
          (nextQuarterTimestamp
            { hoursSinceEpoch := 500000, minute := 17, second := 30, microsecond := 5 }),
        0, { files := fun _ _ => none, ledger := [], readme := "" }) ∧
    nextQuarterTimestamp
        { hoursSinceEpoch := 500000, minute := 17, second := 30, microsecond := 5 } % 900 = 0 := by
  have h := submit_quarter_hour_retry
    { now := { hoursSinceEpoch := 500000, minute := 17, second := 30, microsecond := 5 },
      catalog := { languages := [("python", ⟨"Python", "3.11", "python", "python", none⟩)],
                   lookup := [("python", ⟨"Python", "3.11", "python", "python", none⟩)] },
      extract := fun _ _ _ => [], reSearch := fun _ _ => none,
      sol1 := none, sol2 := none, suppCases := [], runs := fun _ => [],
      decode := fun _ => "", authorName := "alice" }
    1 "python" { cbLanguage := none, content := "print(1)" }
    { files := fun _ _ => none, ledger := [], readme := "" }
    ⟨"Python", "3.11", "python", "python", none⟩
    (by decide) (by decide) rfl rfl (by decide) (by decide) (by decide)
  exact ⟨h.1, h.2.1⟩

/-- C2.  On expected tuples of arity 1 or 2, the grading comparison agrees
with the reference definition `gradeSpec` transcribed from the spec; a
single-expectation (day 25) case never grades `WrongBoth`; and the spec's
concrete grading examples hold. -/
theorem grade_decoded_spec :
    (∀ answers real_answers : List String,
      real_answers.length = 1 ∨ real_answers.length = 2 →
      grade_decoded answers real_answers = gradeSpec answers real_answers) ∧
    (∀ answers real_answers : List String, real_answers.length = 1 →
      ∀ gp ep, grade_decoded answers real_answers ≠ .WrongBoth gp ep) ∧
    grade_decoded ["4", "9"] ["4", "9"] = .Correct ∧
    grade_decoded ["4", "9"] ["4", "8"] = .WrongAnswer 2 "9" "8" ∧
    grade_decoded ["5", "9"] ["4", "8"] = .WrongBoth ("5", "9") ("4", "8") ∧
    grade_decoded ["4"] ["4", "9"] = .WrongCount 1 2 := by
  refine ⟨?_, ?_, by decide, by decide, by decide, by decide⟩
  · intro answers real_answers harity
    rcases harity with h1 | h2
    · match real_answers, h1 with
      | [e1], _ =>
        by_cases hlen : answers.length = 1
        · match answers, hlen with
          | [a1], _ =>
            by_cases heq : a1 = e1
            · subst heq
              simp [grade_decoded, gradeSpec]
            · simp [grade_decoded, gradeSpec, heq]
        · simp [grade_decoded, gradeSpec, hlen]
    · match real_answers, h2 with
      | [e1, e2], _ =>
        by_cases hlen : answers.length = 2
        · match answers, hlen with
          | [a1, a2], _ =>
            by_cases heq : a1 = e1 ∧ a2 = e2
            · obtain ⟨rfl, rfl⟩ := heq
              simp [grade_decoded, gradeSpec]
            · by_cases h01 : a1 = e1
              · subst h01
                have h2ne : a2 ≠ e2 := fun h => heq ⟨rfl, h⟩
                simp [grade_decoded, gradeSpec, h2ne]
              · by_cases h11 : a2 = e2
                · subst h11
                  simp [grade_decoded, gradeSpec, h01]
                · simp [grade_decoded, gradeSpec, h01, h11]
        · simp [grade_decoded, gradeSpec, hlen]
  · intro answers real_answers h1 gp ep
    match real_answers, h1 with
    | [e1], _ =>
      by_cases hlen : answers.length = 1
      · match answers, hlen with
        | [a1], _ =>
          by_cases heq : a1 = e1
          · subst heq
            simp [grade_decoded]
          · simp [grade_decoded, heq]
      · simp [grade_decoded, hlen]

/-- Witness for `grade_decoded_spec` (instantiating the quantified, guarded
conjuncts at concrete inputs). -/
theorem grade_decoded_spec_witness :
    grade_decoded ["5"] ["4"] = gradeSpec ["5"] ["4"] ∧
    grade_decoded ["5"] ["4"] ≠ .WrongBoth ("5", "") ("4", "") :=
  ⟨grade_decoded_spec.1 ["5"] ["4"] (Or.inl rfl),
   grade_decoded_spec.2.1 ["5"] ["4"] rfl ("5", "") ("4", "")⟩

/-! ### Decoder lemmas -/

/-- A single-character needle is an infix iff the character occurs. -/
lemma isGridToken_iff_mem (t : String) : isGridToken t = true ↔ '#' ∈ t.toList := by
  simp only [isGridToken, containsSub, decide_eq_true_eq]
  constructor
  · intro h
    exact h.sublist.subset (by simp [String.toList])
  · intro h
    obtain ⟨s, u, heq⟩ := List.append_of_mem h
    exact ⟨s, u, by rw [heq]; simp⟩

/-- One unfolding step of `parse_answers_aux`. -/
lemma parse_answers_aux_cons (decode : List (List Bool) → String) (a : String)
    (rest : List String) (g : List (List Bool)) :
    parse_answers_aux decode (a :: rest) g =
      if isGridToken a = true then
        if (g ++ [row_to_bools a]).length = 6 then
          decode (g ++ [row_to_bools a]) :: parse_answers_aux decode rest []
        else parse_answers_aux decode rest (g ++ [row_to_bools a])
      else a :: parse_answers_aux decode rest g := rfl

/-- One unfolding step of `gridState`. -/
lemma gridState_cons (a : String) (rest : List String) (g : List (List Bool)) :
    gridState (a :: rest) g =
      if isGridToken a = true then
        if (g ++ [row_to_bools a]).length = 6 then gridState rest []
        else gridState rest (g ++ [row_to_bools a])
      else gridState rest g := rfl

/-- Processing an appended token list: the left part emits its own answers
from the starting accumulator, then the right part continues from the
accumulator state the left part left behind. -/
lemma parse_answers_aux_append (decode : List (List Bool) → String)
    (xs : List String) :
    ∀ (ys : List String) (g : List (List Bool)),
      parse_answers_aux decode (xs ++ ys) g =
        parse_answers_aux decode xs g ++ parse_answers_aux decode ys (gridState xs g) := by
  induction xs with
  | nil => intro ys g; simp [parse_answers_aux, gridState]
  | cons a rest ih =>
    intro ys g
    rw [List.cons_append, parse_answers_aux_cons, parse_answers_aux_cons, gridState_cons]
    by_cases hg : isGridToken a = true
    · rw [if_pos hg, if_pos hg, if_pos hg]
      by_cases h6 : (g ++ [row_to_bools a]).length = 6
      · rw [if_pos h6, if_pos h6, if_pos h6, ih, List.cons_append]
      · rw [if_neg h6, if_neg h6, if_neg h6, ih]
    · rw [if_neg hg, if_neg hg, if_neg hg, ih, List.cons_append]

/-- A run of plain tokens is emitted verbatim, from any accumulator state. -/
lemma parse_answers_aux_plain (decode : List (List Bool) → String)
    (ts : List String) (hts : ∀ t ∈ ts, isGridToken t = false) :
    ∀ g, parse_answers_aux decode ts g = ts := by
  induction ts with
  | nil => intro g; simp [parse_answers_aux]
  | cons a rest ih =>
    intro g
    have ha : ¬ isGridToken a = true := by
      simp [hts a (List.mem_cons_self a rest)]
    rw [parse_answers_aux_cons, if_neg ha,
      ih (fun t ht => hts t (List.mem_cons_of_mem a ht)) g]

/-- A run of grid tokens too short to complete the accumulator emits
nothing. -/
lemma parse_answers_aux_grid_short (decode : List (List Bool) → String)
    (rs : List String) (hrs : ∀ t ∈ rs, isGridToken t = true) :
    ∀ g : List (List Bool), g.length + rs.length < 6 →
      parse_answers_aux decode rs g = [] := by
  induction rs with
  | nil => intro g _; simp [parse_answers_aux]
  | cons a rest ih =>
    intro g hlen
    have ha := hrs a (List.mem_cons_self a rest)
    have h6 : ¬ (g ++ [row_to_bools a]).length = 6 := by
      simp only [List.length_append, List.length_cons, List.length_nil]
      simp only [List.length_cons] at hlen
      omega
    rw [parse_answers_aux_cons, if_pos ha, if_neg h6]
    refine ih (fun t ht => hrs t (List.mem_cons_of_mem a ht)) _ ?_
    simp only [List.length_append, List.length_cons, List.length_nil] at *
    omega

/-- A run of grid tokens too short to complete the accumulator extends it by
the tokens' bitmap rows. -/
lemma gridState_grid_short (rs : List String)
    (hrs : ∀ t ∈ rs, isGridToken t = true) :
    ∀ g : List (List Bool), g.length + rs.length < 6 →
      gridState rs g = g ++ rs.map row_to_bools := by
  induction rs with
  | nil => intro g _; simp [gridState]
  | cons a rest ih =>
    intro g hlen
    have ha := hrs a (List.mem_cons_self a rest)
    have h6 : ¬ (g ++ [row_to_bools a]).length = 6 := by
      simp only [List.length_append, List.length_cons, List.length_nil]
      simp only [List.length_cons] at hlen
      omega
    rw [gridState_cons, if_pos ha, if_neg h6,
      ih (fun t ht => hrs t (List.mem_cons_of_mem a ht))]
    · simp
    · simp only [List.length_append, List.length_cons, List.length_nil] at *
      omega

/-- A run of grid tokens that exactly completes the accumulator emits one
decoded answer carrying all accumulated rows. -/
lemma parse_answers_aux_grid_complete (decode : List (List Bool) → String)
    (rs : List String) (hrs : ∀ t ∈ rs, isGridToken t = true) :
    ∀ g : List (List Bool), g.length + rs.length = 6 → rs ≠ [] →
      parse_answers_aux decode rs g = [decode (g ++ rs.map row_to_bools)] := by
  induction rs with
  | nil => intro g _ hne; exact absurd rfl hne
  | cons a rest ih =>
    intro g hlen _
    have ha := hrs a (List.mem_cons_self a rest)
    match rest, hrs, ih with
    | [], _, _ =>
      have h6 : (g ++ [row_to_bools a]).length = 6 := by
        simp only [List.length_cons, List.length_nil] at hlen
        simp only [List.length_append, List.length_cons, List.length_nil]
        omega
      rw [parse_answers_aux_cons, if_pos ha, if_pos h6]
      simp [parse_answers_aux]
    | b :: rest', hrs, ih =>
      have h6 : ¬ (g ++ [row_to_bools a]).length = 6 := by
        simp only [List.length_cons] at hlen
        simp only [List.length_append, List.length_cons, List.length_nil]
        omega
      rw [parse_answers_aux_cons, if_pos ha, if_neg h6,
        ih (fun t ht => hrs t (List.mem_cons_of_mem a ht)) (g ++ [row_to_bools a])
          (by simp only [List.length_append, List.length_cons, List.length_nil] at *; omega)
          (List.cons_ne_nil b rest')]
      simp

/-- The accumulator length after a token list is the grid-token count plus
the initial length, modulo the 6-row flush. -/
lemma gridState_length (ts : List String) :
    ∀ g : List (List Bool), g.length < 6 →
      (gridState ts g).length = (g.length + countGrid ts) % 6 := by
  induction ts with
  | nil => intro g hg; simp [gridState, countGrid, Nat.mod_eq_of_lt hg]
  | cons a rest ih =>
    intro g hg
    by_cases ha : isGridToken a = true
    · have hcount : countGrid (a :: rest) = 1 + countGrid rest := by
        simp [countGrid, List.filter_cons, ha, Nat.add_comm]
      by_cases h6 : (g ++ [row_to_bools a]).length = 6
      · have hg6 : g.length = 5 := by
          simp only [List.length_append, List.length_cons, List.length_nil] at h6
          omega
        rw [gridState_cons, if_pos ha, if_pos h6, ih [] (by norm_num)]
        simp only [List.length_nil, hcount, hg6]
        omega
      · have hlt : (g ++ [row_to_bools a]).length < 6 := by
          simp only [List.length_append, List.length_cons, List.length_nil] at *
          omega
        rw [gridState_cons, if_pos ha, if_neg h6, ih _ hlt]
        simp only [List.length_append, List.length_cons, List.length_nil, hcount]
        omega
    · have ha' : isGridToken a = false := by
        cases h : isGridToken a
        · rfl
        · exact absurd h ha
      have hcount : countGrid (a :: rest) = countGrid rest := by
        simp [countGrid, List.filter_cons, ha']
      rw [gridState_cons, if_neg ha, ih g hg, hcount]

/-- C3.  The answer decoder classifies a token as grid-like iff it contains
the `'#'` marker; plain tokens pass through verbatim; exactly 6 accumulated
grid rows become one decoded answer; and a trailing grid block of fewer than
6 rows (after any tokens that left the accumulator empty) is silently
dropped. -/
theorem parse_answers_spec (decode : List (List Bool) → String) :
    (∀ t, isGridToken t = true ↔ '#' ∈ t.toList) ∧
    (∀ ts, (∀ t ∈ ts, isGridToken t = false) → parse_answers decode ts = ts) ∧
    (∀ rs, (∀ t ∈ rs, isGridToken t = true) → rs.length = 6 →
      parse_answers decode rs = [decode (rs.map row_to_bools)]) ∧
    (∀ ts rs, countGrid ts % 6 = 0 → (∀ t ∈ rs, isGridToken t = true) →
      rs.length < 6 →
      parse_answers decode (ts ++ rs) = parse_answers decode ts) := by
  refine ⟨isGridToken_iff_mem, ?_, ?_, ?_⟩
  · intro ts hts
    exact parse_answers_aux_plain decode ts hts []
  · intro rs hrs hlen
    have := parse_answers_aux_grid_complete decode rs hrs [] (by simpa using hlen)
      (by intro h; subst h; simp at hlen)
    simpa [parse_answers] using this
  · intro ts rs hcount hrs hlen
    unfold parse_answers
    rw [parse_answers_aux_append]
    have hstate : (gridState ts []).length = 0 := by
      rw [gridState_length ts [] (by norm_num)]
      simpa using hcount
    have hempty : gridState ts [] = [] := List.length_eq_zero.mp hstate
    rw [hempty, parse_answers_aux_grid_short decode rs hrs [] (by simpa using hlen)]
    simp

/-- Witness for `parse_answers_spec`: a plain token followed by a 5-row
trailing grid block keeps the plain token and drops the block. -/
theorem parse_answers_spec_witness :
    parse_answers (fun _ => "HI") ["ab", "#", "#", "#", "#", "#"] = ["ab"] := by
  have h := (parse_answers_spec (fun _ => "HI")).2.2.2 ["ab"] ["#", "#", "#", "#", "#"]
    (by decide) (by decide) (by norm_num)
  have hplain : parse_answers (fun (_ : List (List Bool)) => "HI") ["ab"] = ["ab"] :=
    (parse_answers_spec (fun _ => "HI")).2.1 ["ab"] (by decide)
  calc parse_answers (fun _ => "HI") ["ab", "#", "#", "#", "#", "#"]
      = parse_answers (fun _ => "HI") (["ab"] ++ ["#", "#", "#", "#", "#"]) := rfl
    _ = parse_answers (fun _ => "HI") ["ab"] := h
    _ = ["ab"] := hplain

/-- C10.  A plain token arriving while a grid block is partially accumulated
neither resets nor flushes the accumulator: it is emitted at its own position
(before the grid's decoded answer), and the grid rows on either side of it
combine into the same 6-row bitmap. -/
theorem parse_answers_interleaved (decode : List (List Bool) → String)
    (a : List String) (p : String) (b : List String)
    (ha : ∀ t ∈ a, isGridToken t = true) (hb : ∀ t ∈ b, isGridToken t = true)
    (hp : isGridToken p = false)
    (hlen : a.length + b.length = 6) (hal : a.length < 6) :
    parse_answers decode (a ++ p :: b) =
      p :: [decode ((a ++ b).map row_to_bools)] := by
  unfold parse_answers
  rw [parse_answers_aux_append]
  have hshort := parse_answers_aux_grid_short decode a ha [] (by simpa using hal)
  have hstate := gridState_grid_short a ha [] (by simpa using hal)
  rw [hshort, hstate]
  simp only [List.nil_append]
  have hbne : b ≠ [] := by
    intro h
    subst h
    simp at hlen
    omega
  have hp' : ¬ isGridToken p = true := by simp [hp]
  rw [parse_answers_aux_cons, if_neg hp']
  rw [parse_answers_aux_grid_complete decode b hb (a.map row_to_bools)
    (by simpa using hlen) hbne]
  simp

/-- Witness for `parse_answers_interleaved`: three grid rows, a plain token,
then three more grid rows decode as the plain answer followed by one grid
answer. -/
theorem parse_answers_interleaved_witness :
    parse_answers (fun _ => "X") ["#", "#", "#", "pq", "#", "#", "#"] = ["pq", "X"] := by
  have h := parse_answers_interleaved (fun _ => "X") ["#", "#", "#"] "pq" ["#", "#", "#"]
    (by decide) (by decide) (by decide) (by norm_num) (by norm_num)
  simpa using h

/-! ### Ledger lemmas -/

/-- Looking up the key that `alistSet`'s in-place map just updated finds the
new value. -/
lemma lookup_map_set (m : List (String × String)) (k v : String) :
    List.lookup k (m.map fun p => if p.1 = k then (k, v) else p) =
      (List.lookup k m).map (fun _ => v) := by
  induction m with
  | nil => simp
  | cons p rest ih =>
    obtain ⟨k1, v1⟩ := p
    by_cases hk : k1 = k
    · subst hk
      simp [List.lookup_cons, ih]
    · simp [List.lookup_cons, hk, beq_false_of_ne (Ne.symm hk), ih]

/-- Looking up the day whose inner dictionary `ledgerSet`'s in-place map just
updated finds the updated dictionary. -/
lemma lookup_map_ledgerSet (ledger : Ledger) (day : Nat) (language author : String) :
    List.lookup day
        (ledger.map fun p =>
          if p.1 = day then (day, alistSet p.2 language author) else p) =
      (List.lookup day ledger).map (fun m => alistSet m language author) := by
  induction ledger with
  | nil => simp
  | cons p rest ih =>
    obtain ⟨k1, v1⟩ := p
    by_cases hk : k1 = day
    · subst hk
      simp [List.lookup_cons, ih]
    · simp [List.lookup_cons, hk, beq_false_of_ne (Ne.symm hk), ih]

/-- Association-list lookup distributes over append. -/
lemma lookup_append {α β : Type} [BEq α] [LawfulBEq α] [DecidableEq α]
    (k : α) (l₁ l₂ : List (α × β)) :
    List.lookup k (l₁ ++ l₂) = (List.lookup k l₁).or (List.lookup k l₂) := by
  induction l₁ with
  | nil => simp
  | cons p rest ih =>
    obtain ⟨k1, v1⟩ := p
    by_cases hk : k1 = k
    · subst hk
      simp [List.lookup_cons]
    · simp [List.lookup_cons, beq_false_of_ne (Ne.symm hk), ih]

/-- After `m[k] = v`, looking up `k` yields `v`. -/
lemma lookup_alistSet_self (m : List (String × String)) (k v : String) :
    List.lookup k (alistSet m k v) = some v := by
  unfold alistSet
  by_cases h : (List.lookup k m).isSome
  · rw [if_pos h, lookup_map_set]
    obtain ⟨x, hx⟩ := Option.isSome_iff_exists.mp h
    rw [hx]
    rfl
  · rw [if_neg h, lookup_append, Option.not_isSome_iff_eq_none.mp h]
    simp [List.lookup_cons]

/-- After the ledger mutation of `update_solutions`, the record for
`(day, language)` carries the new author. -/
lemma recordOf_ledgerSet_self (ledger : Ledger) (day : Nat) (language author : String) :
    recordOf (ledgerSet ledger day language author) day language = some author := by
  unfold recordOf ledgerSet
  by_cases h : (List.lookup day ledger).isSome
  · rw [if_pos h, lookup_map_ledgerSet]
    obtain ⟨m, hm⟩ := Option.isSome_iff_exists.mp h
    rw [hm]
    simp [lookup_alistSet_self]
  · rw [if_neg h, lookup_append, Option.not_isSome_iff_eq_none.mp h]
    simp [List.lookup_cons]

/-- C1.  `update_solutions` on a state satisfying the record-iff-file
invariant: with no prior record, it stores the source, records the author and
rebuilds the leaderboard; with a prior record whose stored source has length
`L`, it replaces the source and record (and rebuilds) iff the new source is
strictly shorter than `L` bytes, and otherwise leaves the state byte-for-byte
unchanged — an equal-length tie never replaces the incumbent. -/
theorem update_solutions_spec (s : FS) (day : Nat) (language author code : String)
    (hinv : (s.files day language).isSome ↔ (recordOf s.ledger day language).isSome) :
    (recordOf s.ledger day language = none →
      (update_solutions s day language author code).files day language
          = some (strBytes code) ∧
      recordOf (update_solutions s day language author code).ledger day language
          = some author ∧
      (update_solutions s day language author code).readme
          = update_leaderboard (update_solutions s day language author code).ledger
              (lenOfFiles (update_solutions s day language author code).files)) ∧
    (∀ current, s.files day language = some current →
      recordOf s.ledger day language ≠ none →
      (((strBytes code).length < current.length →
        (update_solutions s day language author code).files day language
            = some (strBytes code) ∧
        recordOf (update_solutions s day language author code).ledger day language
            = some author ∧
        (update_solutions s day language author code).readme
            = update_leaderboard (update_solutions s day language author code).ledger
                (lenOfFiles (update_solutions s day language author code).files)) ∧
      (¬ (strBytes code).length < current.length →
        update_solutions s day language author code = s))) := by
  constructor
  · intro hrec
    have hf : s.files day language = none := by
      cases h : s.files day language with
      | none => rfl
      | some b =>
        exfalso
        have := hinv.mp (by rw [h]; exact rfl)
        rw [hrec] at this
        exact Bool.noConfusion this
    simp only [update_solutions, hf]
    refine ⟨?_, recordOf_ledgerSet_self _ _ _ _, trivial⟩
    simp [setFile]
  · intro current hcur _
    constructor
    · intro hlt
      simp only [update_solutions, hcur, if_pos hlt]
      refine ⟨?_, recordOf_ledgerSet_self _ _ _ _, trivial⟩
      simp [setFile]
    · intro hge
      simp only [update_solutions, hcur, if_neg hge]

/-- Witness for `update_solutions_spec`: the first solution for a
`(day, language)` pair is stored and recorded. -/
theorem update_solutions_spec_witness :
    recordOf ([] : Ledger) 1 "Python" = none ∧
    (update_solutions { files := fun _ _ => none, ledger := [], readme := "" }
        1 "Python" "alice" "xy").files 1 "Python" = some (strBytes "xy") ∧
    recordOf (update_solutions { files := fun _ _ => none, ledger := [], readme := "" }
        1 "Python" "alice" "xy").ledger 1 "Python" = some "alice" := by
  have h := update_solutions_spec { files := fun _ _ => none, ledger := [], readme := "" }
    1 "Python" "alice" "xy" (by simp [recordOf])
  exact ⟨rfl, (h.1 rfl).1, (h.1 rfl).2.1⟩

/-- C7.  Leaderboard regeneration is deterministic and a pure function of the
ledger snapshot plus the stored sources' byte lengths: two states with equal
ledgers whose stored sources agree in byte length (even with different
contents) produce identical leaderboard documents; in particular rebuilding
twice on the same state gives the same document. -/
theorem update_leaderboard_pure (s1 s2 : FS)
    (hl : s1.ledger = s2.ledger)
    (hf : ∀ d l, (s1.files d l).map List.length = (s2.files d l).map List.length) :
    update_leaderboard s1.ledger (lenOfFiles s1.files)
      = update_leaderboard s2.ledger (lenOfFiles s2.files) := by
  have hlen : lenOfFiles s1.files = lenOfFiles s2.files := by
    funext d l
    have h := hf d l
    unfold lenOfFiles
    cases h1 : s1.files d l with
    | none =>
      cases h2 : s2.files d l with
      | none => rfl
      | some b => rw [h1, h2] at h; simp at h
    | some a =>
      cases h2 : s2.files d l with
      | none => rw [h1, h2] at h; simp at h
      | some b =>
        rw [h1, h2] at h
        simp only [Option.map_some'] at h
        simpa using h
  rw [hl, hlen]

/-- Witness for `update_leaderboard_pure`: two stores whose day-1 sources
differ in content but not in length produce the same document. -/
theorem update_leaderboard_pure_witness :
    update_leaderboard
        (FS.mk (fun d _ => if d = 1 then some [1] else none) [(1, [("py", "a")])] "").ledger
        (lenOfFiles
          (FS.mk (fun d _ => if d = 1 then some [1] else none) [(1, [("py", "a")])] "").files)
      = update_leaderboard
        (FS.mk (fun d _ => if d = 1 then some [2] else none) [(1, [("py", "a")])] "").ledger
        (lenOfFiles
          (FS.mk (fun d _ => if d = 1 then some [2] else none) [(1, [("py", "a")])] "").files) := by
  apply update_leaderboard_pure
  · rfl
  · intro d l
    by_cases h : d = 1 <;> simp [h]

/-! ### Leaderboard structure lemmas -/

/-- `foldl max` dominates its initial value. -/
lemma init_le_foldl_max (l : List Nat) : ∀ a, a ≤ l.foldl max a := by
  induction l with
  | nil => intro a; exact le_refl a
  | cons b t ih => intro a; exact le_trans (le_max_left a b) (ih (max a b))

/-- `foldl max` dominates every list element. -/
lemma mem_le_foldl_max (l : List Nat) : ∀ a x, x ∈ l → x ≤ l.foldl max a := by
  induction l with
  | nil => intro a x hx; exact absurd hx (List.not_mem_nil x)
  | cons b t ih =>
    intro a x hx
    simp only [List.foldl_cons]
    rcases List.mem_cons.mp hx with rfl | hx'
    · exact le_trans (le_max_right a x) (init_le_foldl_max t _)
    · exact ih _ x hx'

/-- `foldl max` is the initial value or attained by a list element. -/
lemma foldl_max_attained (l : List Nat) : ∀ a, l.foldl max a = a ∨ l.foldl max a ∈ l := by
  induction l with
  | nil => intro a; exact Or.inl rfl
  | cons b t ih =>
    intro a
    simp only [List.foldl_cons]
    rcases ih (max a b) with h | h
    · rcases max_choice a b with hab | hab
      · exact Or.inl (by rw [h, hab])
      · exact Or.inr (by rw [h, hab]; exact List.mem_cons_self b t)
    · exact Or.inr (List.mem_cons_of_mem b h)

/-- The amended per-cell semantics of the leaderboard, stated via ledger
records: byte length and author when a record with a non-empty author exists,
else the placeholder (a record whose author is the empty string also renders
as the placeholder, by Python truthiness in `get_entry`). -/
def leaderboardCellSpec (ledger : Ledger) (lenOf : Nat → String → Nat)
    (day : Nat) (lang : String) : String :=
  match recordOf ledger day lang with
  | some author =>
    if author = "" then "-"
    else
      "[" ++ toString (lenOf day lang) ++ " - " ++ author ++ "](./solutions/"
        ++ toString day ++ "/" ++ quoteUrl lang ++ ")"
  | none => "-"

/-- `get_entry` on the day's dictionary agrees with the record-level cell
semantics. -/
lemma get_entry_recordOf (ledger : Ledger) (lenOf : Nat → String → Nat)
    (day : Nat) (lang : String) :
    get_entry lenOf ((List.lookup day ledger).getD []) day lang
      = leaderboardCellSpec ledger lenOf day lang := by
  cases h : List.lookup day ledger <;>
    simp [get_entry, leaderboardCellSpec, recordOf, h]

/-- Counterexample to C6 as stated: in the ledger whose only record is
`(day 1, "python")` with the empty-string author, a record exists, yet the
leaderboard cell is the placeholder `"-"` rather than the stored length and
author (Python's `if author := day_solutions.get(lang)` treats the empty
string as false). -/
theorem update_leaderboard_empty_author_counterexample :
    recordOf [(1, [("python", "")])] 1 "python" = some "" ∧
    leaderboardTable [(1, [("python", "")])] (fun _ _ => 3)
      = "Day | python\n--: | ---\n1 | -" :=
  ⟨rfl, rfl⟩

/-- C6 (amended).  For a non-empty ledger the rebuilt document has
lexicographically sorted, duplicate-free language columns, exactly the
languages appearing in the ledger; one row per day from 1 to the highest
recorded day inclusive; each cell showing the stored byte length and author
when a record with a non-empty author exists and the placeholder otherwise
(an empty-string author renders as the placeholder); and the README is
written wholesale around the table. -/
theorem update_leaderboard_structure (ledger : Ledger) (lenOf : Nat → String → Nat)
    (hne : ledger ≠ []) :
    List.Sorted (· ≤ ·) (allLangs ledger) ∧
    (allLangs ledger).Nodup ∧
    (∀ l, l ∈ allLangs ledger ↔ ∃ p ∈ ledger, ∃ a, (l, a) ∈ p.2) ∧
    (∀ p ∈ ledger, p.1 ≤ maxDay ledger) ∧
    (∃ p ∈ ledger, p.1 = maxDay ledger) ∧
    leaderboardTable ledger lenOf =
      "Day | " ++ String.intercalate " | " (allLangs ledger) ++ "\n--: | "
        ++ String.intercalate " | " ((allLangs ledger).map fun _ => "---")
        ++ String.join ((List.range' 1 (maxDay ledger)).map fun day =>
            "\n" ++ toString day ++ " | " ++ String.intercalate " | "
              ((allLangs ledger).map (leaderboardCellSpec ledger lenOf day))) ∧
    update_leaderboard ledger lenOf
      = readmeTemplatePre ++ leaderboardTable ledger lenOf ++ "\n" := by
  refine ⟨?_, ?_, ?_, ?_, ?_, ?_, rfl⟩
  · unfold allLangs
    exact List.sorted_insertionSort _ _
  · unfold allLangs
    exact (List.perm_insertionSort _ _).nodup_iff.mpr (List.nodup_dedup _)
  · intro l
    simp only [allLangs]
    rw [List.Perm.mem_iff (List.perm_insertionSort _ _), List.mem_dedup,
      List.mem_flatMap]
    constructor
    · rintro ⟨p, hp, hl⟩
      obtain ⟨⟨l', a⟩, ha, rfl⟩ := List.mem_map.mp hl
      exact ⟨p, hp, a, ha⟩
    · rintro ⟨p, hp, a, ha⟩
      exact ⟨p, hp, List.mem_map.mpr ⟨(l, a), ha, rfl⟩⟩
  · intro p hp
    exact mem_le_foldl_max _ 0 p.1 (List.mem_map_of_mem Prod.fst hp)
  · rcases foldl_max_attained (ledger.map Prod.fst) 0 with h | h
    · obtain ⟨p0, hp0⟩ := List.exists_mem_of_ne_nil ledger hne
      refine ⟨p0, hp0, ?_⟩
      have hle := mem_le_foldl_max (ledger.map Prod.fst) 0 p0.1
        (List.mem_map_of_mem Prod.fst hp0)
      unfold maxDay
      omega
    · obtain ⟨p, hp, hval⟩ := List.mem_map.mp h
      exact ⟨p, hp, hval⟩
  · have hrow : ∀ day, leaderboardRow ledger lenOf (allLangs ledger) day
        = toString day ++ " | " ++ String.intercalate " | "
            ((allLangs ledger).map (leaderboardCellSpec ledger lenOf day)) := by
      intro day
      unfold leaderboardRow
      congr 1
      apply congrArg (String.intercalate " | ")
      apply List.map_congr_left
      intro lang _
      exact get_entry_recordOf ledger lenOf day lang
    simp only [leaderboardTable, hrow]
    simp [String.append_assoc]

/-- Witness for `update_leaderboard_structure`: a one-record ledger yields
the expected sorted columns and fully rendered table. -/
theorem update_leaderboard_structure_witness :
    List.Sorted (· ≤ ·) (allLangs [(2, [("go", "bob")])]) ∧
    leaderboardTable [(2, [("go", "bob")])] (fun _ _ => 5)
      = "Day | go\n--: | ---\n1 | -\n2 | [5 - bob](./solutions/2/go)" := by
  have h := update_leaderboard_structure [(2, [("go", "bob")])] (fun _ _ => 5) (by simp)
  refine ⟨h.1, ?_⟩
  rw [h.2.2.2.2.2.1]
  rfl

/-! ### Language-catalog lemmas -/

/-- One unfolding step of `filterResults`. -/
lemma filterResults_cons (lookup : List (String × LangMeta)) (lang : String)
    (score : Nat) (rest : List (String × Nat)) (found : List String) :
    filterResults lookup ((lang, score) :: rest) found =
      match List.lookup lang lookup with
      | some meta =>
        if meta.name ∈ found then filterResults lookup rest found
        else (meta, score) :: filterResults lookup rest (meta.name :: found)
      | none => filterResults lookup rest found := rfl

/-- The kept fuzzy-match results have pairwise-distinct underlying display
names, none of which was already in the seen set. -/
lemma filterResults_nodup (lookup : List (String × LangMeta)) :
    ∀ (results : List (String × Nat)) (found : List String),
      (((filterResults lookup results found).map fun p => p.1.name).Nodup ∧
       ∀ n ∈ (filterResults lookup results found).map fun p => p.1.name,
         n ∉ found) := by
  intro results
  induction results with
  | nil => intro found; simp [filterResults]
  | cons r rest ih =>
    intro found
    obtain ⟨lang, score⟩ := r
    rw [filterResults_cons]
    cases hl : List.lookup lang lookup with
    | none => exact ih found
    | some meta =>
      dsimp only
      by_cases hm : meta.name ∈ found
      · rw [if_pos hm]
        exact ih found
      · rw [if_neg hm]
        obtain ⟨hnd, hnotin⟩ := ih (meta.name :: found)
        refine ⟨?_, ?_⟩
        · simp only [List.map_cons, List.nodup_cons]
          refine ⟨?_, hnd⟩
          intro hmem
          exact hnotin meta.name hmem (List.mem_cons_self _ _)
        · intro n hn
          simp only [List.map_cons, List.mem_cons] at hn
          rcases hn with rfl | hn'
          · exact hm
          · intro hfound
            exact hnotin n hn' (List.mem_cons_of_mem _ hfound)

/-- C9 (code bug).  When a query has no exact (case-insensitive) match
against a catalog key or lookup name, `get_language` does compute `none` plus
at most `top_n` ranked suggestions with pairwise-distinct underlying
languages (display names) — but the submission command never surfaces them:
its reformatting comprehension (`lang in self.languages`, with `lang` a
`LanguageMeta` dict) raises `TypeError` whenever the suggestion list is
non-empty, so the command dies (state unchanged, zero executions) instead of
replying with the ranked list; only a query with no suggestions at all
reaches the suggestions reply. -/
theorem get_language_suggestions_crash (cat : Catalog)
    (extract : String → List String → Nat → List (String × Nat))
    (query : String) (top_n : Nat)
    (h1 : List.lookup (strLower query) cat.languages = none)
    (h2 : List.lookup (strLower query) cat.lookup = none) :
    (get_language cat extract query top_n).1 = none ∧
    (get_language cat extract query top_n).2.length ≤ top_n ∧
    ((get_language cat extract query top_n).2.map fun p => p.1.name).Nodup ∧
    (∀ (env : SubmitEnv) (day : Nat) (code : Codeblock) (s : FS),
      env.catalog = cat → env.extract = extract →
      ¬ env.now.toMicros < puzzleUnlockMicros day →
      ((get_language cat extract query 3).2 ≠ [] →
        submit env day query code s = (.typeError, 0, s)) ∧
      ((get_language cat extract query 3).2 = [] →
        submit env day query code s = (.langNotFound, 0, s))) := by
  have hg : ∀ n, get_language cat extract query n
      = (none, (filterResults cat.lookup
          (extract (strLower query) (cat.lookup.map Prod.fst) (n * 2)) []).take n) := by
    intro n
    simp only [get_language, h1, h2]
  refine ⟨?_, ?_, ?_, ?_⟩
  · rw [hg]
  · rw [hg]
    simp only [List.length_take]
    exact min_le_left _ _
  · rw [hg]
    simp only
    rw [List.map_take]
    exact ((filterResults_nodup cat.lookup _ []).1).sublist (List.take_sublist _ _)
  · intro env day code s hcat hext hunlock
    have hg3 : (get_language env.catalog env.extract query 3).1 = none := by
      rw [hcat, hext, hg]
    constructor
    · intro hne
      have htop : top3Meta (get_language env.catalog env.extract query 3).2
          = .error () := by
        rw [hcat, hext]
        cases hm : (get_language cat extract query 3).2 with
        | nil => exact absurd hm hne
        | cons a t => rfl
      simp only [submit, if_neg hunlock, hg3, htop]
    · intro hnil
      have htop : top3Meta (get_language env.catalog env.extract query 3).2
          = .ok [] := by
        rw [hcat, hext, hnil]
        rfl
      simp only [submit, if_neg hunlock, hg3, htop]

/-- Witness for `get_language_suggestions_crash`: a misspelt query over a
one-language catalog yields no exact match, one deduplicated suggestion, and
a submission attempt that dies with the `TypeError` (never surfacing the
suggestion), leaving the state unchanged with zero executions. -/
theorem get_language_suggestions_crash_witness :
    (get_language
        { languages := [("python", ⟨"Python", "3.11", "python", "python", none⟩)],
          lookup := [("python", ⟨"Python", "3.11", "python", "python", none⟩)] }
        (fun _ _ _ => [("python", 90), ("python", 80)]) "pythn" 3).1 = none ∧
    ((get_language
        { languages := [("python", ⟨"Python", "3.11", "python", "python", none⟩)],
          lookup := [("python", ⟨"Python", "3.11", "python", "python", none⟩)] }
        (fun _ _ _ => [("python", 90), ("python", 80)]) "pythn" 3).2.map
      fun p => p.1.name).Nodup ∧
    submit
        { now := { hoursSinceEpoch := 500000, minute := 0, second := 0, microsecond := 0 },
          catalog := { languages := [("python", ⟨"Python", "3.11", "python", "python", none⟩)],
                       lookup := [("python", ⟨"Python", "3.11", "python", "python", none⟩)] },
          extract := fun _ _ _ => [("python", 90), ("python", 80)],
          reSearch := fun _ _ => none,
          sol1 := some "42", sol2 := some "99", suppCases := [], runs := fun _ => [],
          decode := fun _ => "", authorName := "a" }
        1 "pythn" { cbLanguage := none, content := "x" }
        { files := fun _ _ => none, ledger := [], readme := "" } =
      (.typeError, 0, { files := fun _ _ => none, ledger := [], readme := "" }) := by
  have h := get_language_suggestions_crash
    { languages := [("python", ⟨"Python", "3.11", "python", "python", none⟩)],
      lookup := [("python", ⟨"Python", "3.11", "python", "python", none⟩)] }
    (fun _ _ _ => [("python", 90), ("python", 80)]) "pythn" 3 (by decide) (by decide)
  refine ⟨h.1, h.2.2.1, ?_⟩
  exact (h.2.2.2
    { now := { hoursSinceEpoch := 500000, minute := 0, second := 0, microsecond := 0 },
      catalog := { languages := [("python", ⟨"Python", "3.11", "python", "python", none⟩)],
                   lookup := [("python", ⟨"Python", "3.11", "python", "python", none⟩)] },
      extract := fun _ _ _ => [("python", 90), ("python", 80)],
      reSearch := fun _ _ => none,
      sol1 := some "42", sol2 := some "99", suppCases := [], runs := fun _ => [],
      decode := fun _ => "", authorName := "a" }
    1 { cbLanguage := none, content := "x" }
    { files := fun _ _ => none, ledger := [], readme := "" }
    rfl rfl (by decide)).1 (by decide)

/-! ### Orchestrator lemmas -/

/-- One unfolding step of `suppLoop`. -/
lemma suppLoop_cons (env : SubmitEnv) (day : Nat) (c : String × String × String)
    (rest : List (String × String × String)) (idx cnt : Nat) :
    suppLoop env day (c :: rest) idx cnt =
      if gradeOk env.decode (env.runs cnt) (suppAnswers day c) then
        suppLoop env day rest (idx + 1) (cnt + 1)
      else (some idx, cnt + 1) := rfl

/-- If the supplementary-case loop reports no failure, every case graded
`Correct` on its own remote run. -/
lemma suppLoop_all_ok (env : SubmitEnv) (day : Nat) :
    ∀ (cases : List (String × String × String)) (idx cnt cnt' : Nat),
      suppLoop env day cases idx cnt = (none, cnt') →
      ∀ i, (h : i < cases.length) →
        gradeOk env.decode (env.runs (cnt + i))
          (suppAnswers day (cases.get ⟨i, h⟩)) = true := by
  intro cases
  induction cases with
  | nil => intro idx cnt cnt' _ i h; simp at h
  | cons c rest ih =>
    intro idx cnt cnt' hloop i h
    rw [suppLoop_cons] at hloop
    by_cases hok : gradeOk env.decode (env.runs cnt) (suppAnswers day c) = true
    · rw [if_pos hok] at hloop
      match i with
      | 0 => simpa using hok
      | j + 1 =>
        have hj : j < rest.length := by simpa using h
        have hrec := ih (idx + 1) (cnt + 1) cnt' hloop j hj
        have harith : cnt + 1 + j = cnt + (j + 1) := by omega
        rw [harith] at hrec
        simpa using hrec
    · rw [if_neg hok] at hloop
      simp at hloop

/-- C4.  A submission attempt that does not end in acceptance leaves the
repository state untouched (no partial ledger, file or leaderboard writes);
and an accepted attempt implies the primary case and every supplementary
case graded `Correct`, the final state being exactly the ledger update. -/
theorem submit_no_partial_writes (env : SubmitEnv) (day : Nat) (language : String)
    (code : Codeblock) (s : FS) :
    ((submit env day language code s).1 ≠ .accepted →
      (submit env day language code s).2.2 = s) ∧
    ((submit env day language code s).1 = .accepted →
      ∃ meta real_answers,
        (get_language env.catalog env.extract language 3).1 = some meta ∧
        realAnswersOf env day = some real_answers ∧
        gradeOk env.decode (env.runs 0) real_answers = true ∧
        (∀ i, (h : i < env.suppCases.length) →
          gradeOk env.decode (env.runs (1 + i))
            (suppAnswers day (env.suppCases.get ⟨i, h⟩)) = true) ∧
        (submit env day language code s).2.2 =
          update_solutions s day meta.name env.authorName
            (trimCode language code).content) := by
  by_cases hun : env.now.toMicros < puzzleUnlockMicros day
  · refine ⟨fun _ => by simp [submit, hun], fun h => ?_⟩
    exfalso
    simp [submit, hun] at h
  · cases hlang : (get_language env.catalog env.extract language 3).1 with
    | none =>
      cases htop : top3Meta (get_language env.catalog env.extract language 3).2 with
      | ok l =>
        refine ⟨fun _ => by simp [submit, hun, hlang, htop], fun h => ?_⟩
        exfalso
        simp [submit, hun, hlang, htop] at h
      | error e =>
        refine ⟨fun _ => by simp [submit, hun, hlang, htop], fun h => ?_⟩
        exfalso
        simp [submit, hun, hlang, htop] at h
    | some meta =>
      by_cases hres : restrictionHit env meta (trimCode language code).content = true
      · refine ⟨fun _ => by simp [submit, hun, hlang, hres], fun h => ?_⟩
        exfalso
        simp [submit, hun, hlang, hres] at h
      · have hresf : restrictionHit env meta (trimCode language code).content = false :=
          by revert hres; cases restrictionHit env meta (trimCode language code).content <;> simp
        cases hans : realAnswersOf env day with
        | none =>
          refine ⟨fun _ => by simp [submit, hun, hlang, hresf, hans], fun h => ?_⟩
          exfalso
          simp [submit, hun, hlang, hresf, hans] at h
        | some ras =>
          by_cases hcheat : cheatCheck day ras (trimCode language code).content = true
          · refine ⟨fun _ => by simp [submit, hun, hlang, hresf, hans, hcheat], fun h => ?_⟩
            exfalso
            simp [submit, hun, hlang, hresf, hans, hcheat] at h
          · have hcheatf : cheatCheck day ras (trimCode language code).content = false :=
              by revert hcheat; cases cheatCheck day ras (trimCode language code).content <;> simp
            by_cases hprim : gradeOk env.decode (env.runs 0) ras = true
            · cases hloop : suppLoop env day env.suppCases 0 1 with
              | mk o cnt =>
                cases o with
                | some i =>
                  refine ⟨fun _ => by simp [submit, hun, hlang, hresf, hans, hcheatf, hprim, hloop],
                    fun h => ?_⟩
                  exfalso
                  simp [submit, hun, hlang, hresf, hans, hcheatf, hprim, hloop] at h
                | none =>
                  constructor
                  · intro hne
                    exfalso
                    exact hne (by simp [submit, hun, hlang, hresf, hans, hcheatf, hprim, hloop])
                  · intro _
                    refine ⟨meta, ras, rfl, rfl, hprim, ?_, ?_⟩
                    · intro i h
                      exact suppLoop_all_ok env day env.suppCases 0 1 cnt hloop i h
                    · simp [submit, hun, hlang, hresf, hans, hcheatf, hprim, hloop]
            · have hprimf : gradeOk env.decode (env.runs 0) ras = false :=
                by revert hprim; cases gradeOk env.decode (env.runs 0) ras <;> simp
              refine ⟨fun _ => by simp [submit, hun, hlang, hresf, hans, hcheatf, hprimf],
                fun h => ?_⟩
              exfalso
              simp [submit, hun, hlang, hresf, hans, hcheatf, hprimf] at h

/-- Witness for `submit_no_partial_writes`: a still-locked submission aborts
with the state unchanged. -/
theorem submit_no_partial_writes_witness :
    (submit
        { now := { hoursSinceEpoch := 0, minute := 0, second := 0, microsecond := 0 },
          catalog := { languages := [], lookup := [] },
          extract := fun _ _ _ => [], reSearch := fun _ _ => none,
          sol1 := none, sol2 := none, suppCases := [], runs := fun _ => [],
          decode := fun _ => "", authorName := "a" }
        1 "python" { cbLanguage := none, content := "x" }
        { files := fun _ _ => none, ledger := [], readme := "" }).1 ≠ .accepted ∧
    (submit
        { now := { hoursSinceEpoch := 0, minute := 0, second := 0, microsecond := 0 },
          catalog := { languages := [], lookup := [] },
          extract := fun _ _ _ => [], reSearch := fun _ _ => none,
          sol1 := none, sol2 := none, suppCases := [], runs := fun _ => [],
          decode := fun _ => "", authorName := "a" }
        1 "python" { cbLanguage := none, content := "x" }
        { files := fun _ _ => none, ledger := [], readme := "" }).2.2 =
      { files := fun _ _ => none, ledger := [], readme := "" } := by
  have h := submit_no_partial_writes
    { now := { hoursSinceEpoch := 0, minute := 0, second := 0, microsecond := 0 },
      catalog := { languages := [], lookup := [] },
      extract := fun _ _ _ => [], reSearch := fun _ _ => none,
      sol1 := none, sol2 := none, suppCases := [], runs := fun _ => [],
      decode := fun _ => "", authorName := "a" }
    1 "python" { cbLanguage := none, content := "x" }
    { files := fun _ _ => none, ledger := [], readme := "" }
  exact ⟨by decide, h.1 (by decide)⟩

/-- C5.  Once a submission reaches the anti-cheat stage (unlocked day,
resolved language, no variant restriction hit, expected answers present), it
is rejected as a cheat exactly when one of the primary case's expected
answers occurs verbatim in the submitted source (both parts for days 1–24,
part 1 alone for day 25); the rejection happens with zero remote executions
and an unchanged state, and — `cheatCheck` reading only the primary
answers — never depends on supplementary cases' expected answers. -/
theorem submit_cheat_rejection (env : SubmitEnv) (day : Nat) (language : String)
    (code : Codeblock) (s : FS) (meta : LangMeta) (real_answers : List String)
    (hunlock : ¬ env.now.toMicros < puzzleUnlockMicros day)
    (hlang : (get_language env.catalog env.extract language 3).1 = some meta)
    (hrx : meta.disallowedRegex = none)
    (hans : realAnswersOf env day = some real_answers) :
    ((submit env day language code s).1 = .cheat ↔
      cheatCheck day real_answers (trimCode language code).content = true) ∧
    (cheatCheck day real_answers (trimCode language code).content = true →
      submit env day language code s = (.cheat, 0, s)) := by
  have hres : restrictionHit env meta (trimCode language code).content = false := by
    simp [restrictionHit, hrx]
  by_cases hcheat : cheatCheck day real_answers (trimCode language code).content = true
  · refine ⟨⟨fun _ => hcheat, fun _ => ?_⟩, fun _ => ?_⟩
    · simp [submit, hunlock, hlang, hres, hans, hcheat]
    · simp [submit, hunlock, hlang, hres, hans, hcheat]
  · have hcheatf : cheatCheck day real_answers (trimCode language code).content = false :=
      by revert hcheat; cases cheatCheck day real_answers (trimCode language code).content <;> simp
    refine ⟨⟨fun habs => ?_, fun h => absurd h hcheat⟩, fun h => absurd h hcheat⟩
    exfalso
    by_cases hprim : gradeOk env.decode (env.runs 0) real_answers = true
    · cases hloop : suppLoop env day env.suppCases 0 1 with
      | mk o cnt =>
        cases o with
        | some i => simp [submit, hunlock, hlang, hres, hans, hcheatf, hprim, hloop] at habs
        | none => simp [submit, hunlock, hlang, hres, hans, hcheatf, hprim, hloop] at habs
    · have hprimf : gradeOk env.decode (env.runs 0) real_answers = false :=
        by revert hprim; cases gradeOk env.decode (env.runs 0) real_answers <;> simp
      simp [submit, hunlock, hlang, hres, hans, hcheatf, hprimf] at habs

/-- Witness for `submit_cheat_rejection`: a submission whose source contains
the primary part-1 answer verbatim is rejected as a cheat with zero
executions and no state change. -/
theorem submit_cheat_rejection_witness :
    cheatCheck 1 ["42", "99"] "print(42)" = true ∧
    submit
        { now := { hoursSinceEpoch := 500000, minute := 0, second := 0, microsecond := 0 },
          catalog := { languages := [("python", ⟨"Python", "3.11", "python", "python", none⟩)],
                       lookup := [("python", ⟨"Python", "3.11", "python", "python", none⟩)] },
          extract := fun _ _ _ => [], reSearch := fun _ _ => none,
          sol1 := some "42", sol2 := some "99", suppCases := [], runs := fun _ => [],
          decode := fun _ => "", authorName := "a" }
        1 "python" { cbLanguage := none, content := "print(42)" }
        { files := fun _ _ => none, ledger := [], readme := "" } =
      (.cheat, 0, { files := fun _ _ => none, ledger := [], readme := "" }) := by
  have h := submit_cheat_rejection
    { now := { hoursSinceEpoch := 500000, minute := 0, second := 0, microsecond := 0 },
      catalog := { languages := [("python", ⟨"Python", "3.11", "python", "python", none⟩)],
                   lookup := [("python", ⟨"Python", "3.11", "python", "python", none⟩)] },
      extract := fun _ _ _ => [], reSearch := fun _ _ => none,
      sol1 := some "42", sol2 := some "99", suppCases := [], runs := fun _ => [],
      decode := fun _ => "", authorName := "a" }
    1 "python" { cbLanguage := none, content := "print(42)" }
    { files := fun _ _ => none, ledger := [], readme := "" }
    ⟨"Python", "3.11", "python", "python", none⟩ ["42", "99"]
    (by decide) (by decide) rfl rfl
  exact ⟨by decide, h.2 (by decide)⟩

end AocGolf
